import Mathlib

/-!
A shallow embedding of `src/main.py` (an Amazon price-checker script) and
proofs about it.  The script's one non-trivial routine, `get_product_info`,
fetches a product page, extracts a price and a title, and on a missing field
decrements a global retry counter (`MAX_RETRIES`) and recursively re-invokes
itself; the script tail compares the extracted price with a target and sends
one notification mail when the price is at or below the target.

Modelling choices:
* Python floats are modelled as exact rationals (`ℚ`); every numeric value
  the claims touch (42.5, 95, 100, 150) is exactly representable in binary
  floating point, so no rounding behaviour is lost on those inputs.
* The network and the parsed page are an oracle `env : Nat → AttemptOutcome`
  giving the outcome of the i-th HTTP fetch.
* The mutable global `MAX_RETRIES` becomes an explicit `budget` field threaded
  through a state record, together with counters of fetches and extraction
  attempts, so that claims about "how many fetches occurred" are statable.
* The unbounded Python recursion is run with fuel `budget.toNat + 1`, which is
  exactly the recursion depth the script reaches whenever the entry budget is
  nonnegative (each recursive call decrements the budget by one and the
  recursion stops at budget zero); the `fuelOut` constructor is never the
  result of any run a theorem below talks about.
-/

/-- ASCII whitespace as recognised by Python's `str.split()` with no
arguments and by `float()`'s surrounding-whitespace tolerance (the unicode
space classes are not modelled; the claims only use ASCII). -/
def isPySpace (c : Char) : Bool :=
  c = ' ' || c = '\t' || c = '\n' || c = '\r' || c = Char.ofNat 11 || c = Char.ofNat 12

/-- The character set of the literal `"\r\n $"` passed to `str.strip` at
`main.py:116`. -/
def priceStripChars : List Char := ['\r', '\n', ' ', '$']

/-- Python `s.strip(chars)`: remove from both ends every character that is a
member of `cs`. -/
def stripChars (l : List Char) (cs : List Char) : List Char :=
  ((l.dropWhile (fun c => c ∈ cs)).reverse.dropWhile (fun c => c ∈ cs)).reverse

/-- Value of a digit string, most significant first. -/
def digitsToNat (l : List Char) : Nat :=
  l.foldl (fun n c => 10 * n + (c.toNat - '0'.toNat)) 0

/-- Python `float()` on the decimal forms `[ws][sign]digits[.digits][ws]`,
`[ws][sign].digits[ws]` and `[ws][sign]digits.[ws]`; exponent, `inf` and
`nan` forms are not modelled (no claim exercises them).  Returns `none`
exactly when `float()` raises `ValueError` on such inputs. -/
def pyFloat (l : List Char) : Option ℚ :=
  let l1 := (((l.dropWhile isPySpace).reverse.dropWhile isPySpace).reverse)
  let signed : Bool × List Char :=
    match l1 with
    | '-' :: r => (true, r)
    | '+' :: r => (false, r)
    | r => (false, r)
  let intD := signed.2.takeWhile Char.isDigit
  let rest := signed.2.dropWhile Char.isDigit
  let mag : Option ℚ :=
    match rest with
    | [] => if intD.isEmpty then none else some (mkRat (digitsToNat intD) 1)
    | '.' :: frac =>
      if frac.all Char.isDigit && !(intD.isEmpty && frac.isEmpty) then
        some (mkRat (digitsToNat intD * 10 ^ frac.length + digitsToNat frac)
          (10 ^ frac.length))
      else none
    | _ => none
  mag.map (fun q => if signed.1 then Rat.neg q else q)

/-- `main.py:116-118`: `price_tag.strip("\r\n $")` followed by
`float(price_tag)`; `none` models the (uncaught) `ValueError`. -/
def parsePriceChars (l : List Char) : Option ℚ :=
  pyFloat (stripChars l priceStripChars)

/-- String wrapper of `parsePriceChars`. -/
def parsePrice (s : String) : Option ℚ :=
  parsePriceChars s.toList

/-- Python `str.split()` with no arguments: split on runs of whitespace,
discarding leading and trailing whitespace.  The accumulator holds the
current word reversed. -/
def pySplitAux : List Char → List Char → List (List Char)
  | [], acc => if acc.isEmpty then [] else [acc.reverse]
  | c :: rest, acc =>
    if isPySpace c then
      if acc.isEmpty then pySplitAux rest []
      else acc.reverse :: pySplitAux rest []
    else pySplitAux rest (c :: acc)

/-- `str(...).split()` at `main.py:122`. -/
def pySplit (l : List Char) : List (List Char) :=
  pySplitAux l []

/-- Python `" ".join(words)` at `main.py:134`. -/
def joinSpace : List (List Char) → List Char
  | [] => []
  | [w] => w
  | w :: ws => w ++ ' ' :: joinSpace ws

/-- Title normalisation performed by `main.py:122` and `main.py:134`:
`" ".join(text.split())`. -/
def normTitle (l : List Char) : List Char :=
  joinSpace (pySplit l)

/-- String wrapper of `normTitle`. -/
def normTitleStr (s : String) : String :=
  String.mk (normTitle s.toList)

/-- Outcome of one `soup.select_one(...).text` access: the node is absent
(`AttributeError` on `None.text`), some other exception is raised, or a text
is obtained. -/
inductive NodeResult where
  | missing : NodeResult
  | otherError : NodeResult
  | text : String → NodeResult
deriving DecidableEq

/-- Outcome of the i-th fetch-and-parse of the page: the HTTP request fails
(`raise_for_status` or a network error), `BeautifulSoup` raises while
parsing, or a parsed page on which the price node and title node accesses
have the given outcomes. -/
inductive AttemptOutcome where
  | transportError : AttemptOutcome
  | parseError : AttemptOutcome
  | page : NodeResult → NodeResult → AttemptOutcome
deriving DecidableEq

/-- Observable state of one run: the current value of the global
`MAX_RETRIES`, the number of HTTP fetches issued so far, and the number of
extraction attempts (pages reached by the extractor) so far. -/
structure RunState where
  budget : Int
  fetches : Nat
  extractions : Nat
deriving DecidableEq

/-- Python value returned by `get_product_info`: a `(name, price)` tuple, the
empty tuple `()` returned at `main.py:140`, or the implicit `None` of the
fall-through paths. -/
inductive PyResult where
  | snapshot : String → ℚ → PyResult
  | emptyTuple : PyResult
  | noneRet : PyResult
deriving DecidableEq

/-- Python truthiness of a `PyResult` under `if not product_info:` —
`()` and `None` are falsy, a two-element tuple is truthy. -/
def PyResult.falsy : PyResult → Bool
  | .snapshot _ _ => false
  | .emptyTuple => true
  | .noneRet => true

/-- Result of running `get_product_info`: a normal return, or one of the
three ways the run aborts (uncaught `HTTPError`/network error, the `quit()`
on a parse error, or the uncaught `ValueError` from `float`), or the fuel
cut-off standing in for unbounded recursion. -/
inductive RunResult where
  | ret : PyResult → RunState → RunResult
  | abortTransport : RunState → RunResult
  | abortParse : RunState → RunResult
  | abortValue : RunState → RunResult
  | fuelOut : RunState → RunResult
deriving DecidableEq

/-- The run state recorded in a `RunResult`. -/
def RunResult.state : RunResult → RunState
  | .ret _ s => s
  | .abortTransport s => s
  | .abortParse s => s
  | .abortValue s => s
  | .fuelOut s => s

/-- One activation of `get_product_info` (`main.py:79-140`), with the global
`MAX_RETRIES` made explicit in `s.budget`.  The guard is the source's
`if MAX_RETRIES != 0`.  On a missing price or title node the budget is
decremented and the function re-invokes itself; the recursive call's return
value is discarded (as in the source) but its state changes persist, and the
caller then falls off the end of the function, returning `None`.  On any
other exception while selecting a node the function logs and falls through
to `None` without decrementing.  A `float` failure propagates. -/
def runAux (env : Nat → AttemptOutcome) : Nat → RunState → RunResult
  | 0, s => .fuelOut s
  | fuel + 1, s =>
    if s.budget ≠ 0 then
      match env s.fetches with
      | .transportError => .abortTransport ⟨s.budget, s.fetches + 1, s.extractions⟩
      | .parseError => .abortParse ⟨s.budget, s.fetches + 1, s.extractions⟩
      | .page priceN titleN =>
        let s1 : RunState := ⟨s.budget, s.fetches + 1, s.extractions + 1⟩
        match priceN with
        | .missing =>
          match runAux env fuel ⟨s1.budget - 1, s1.fetches, s1.extractions⟩ with
          | .ret _ s3 => .ret .noneRet s3
          | r => r
        | .otherError => .ret .noneRet s1
        | .text pt =>
          match parsePrice pt with
          | none => .abortValue s1
          | some listed_price =>
            match titleN with
            | .missing =>
              match runAux env fuel ⟨s1.budget - 1, s1.fetches, s1.extractions⟩ with
              | .ret _ s3 => .ret .noneRet s3
              | r => r
            | .otherError => .ret .noneRet s1
            | .text tt => .ret (.snapshot (normTitleStr tt) listed_price) s1
    else
      .ret .emptyTuple s

/-- Top-level call of `get_product_info` with the global `MAX_RETRIES` equal
to `max_retries` and no fetches yet.  Fuel `max_retries.toNat + 1` is exactly
the recursion depth reached for any nonnegative entry budget. -/
def get_product_info (env : Nat → AttemptOutcome) (max_retries : Int) : RunResult :=
  runAux env (max_retries.toNat + 1) ⟨max_retries, 0, 0⟩

/-- `main.py:61`: the target price, a Python `int`. -/
def TARGET_PRICE : Int := 100

/-- `main.py:64`: the monitored product URL. -/
def AMAZON_URL : String :=
  "https://www.amazon.com/dp/B075CYMYK6?ref_=cm_sw_r_cp_ud_ct_FM9M699VKHTT47YD50Q6&th=1"

/-- Python `str()` of a float whose value is a finite decimal: print with at
least one digit after the decimal point (`str(95.0) = "95.0"`,
`str(42.5) = "42.5"`).  The shortest-round-trip behaviour of `repr` on
non-decimal binary floats is not modelled; no claim produces one. -/
def formatFloat (q : ℚ) : String :=
  match (List.range 17).find? (fun k => (q * (10 : ℚ) ^ (k + 1)).den = 1) with
  | some k =>
    let places := k + 1
    let digits := toString ((q * (10 : ℚ) ^ places).num.natAbs)
    let padded :=
      if digits.length ≤ places then
        String.mk (List.replicate (places + 1 - digits.length) '0') ++ digits
      else digits
    let l := padded.toList
    String.mk (l.take (l.length - places)) ++ "." ++ String.mk (l.drop (l.length - places))
  | none => toString q

/-- The message literal at `main.py:163-165`: a triple-quoted f-string whose
continuation lines each start with sixteen spaces of source indentation. -/
def mailMsg (new_price : ℚ) (product_url product_name : String) : String :=
  "Subject:Price decrease on product you're watching!\n                \n\n"
    ++ product_name ++ " just dropped to $" ++ formatFloat new_price
    ++ ". Your target price was $" ++ toString TARGET_PRICE ++ ".\n                \r"
    ++ "Check out the product at " ++ product_url ++ "."

/-- One SMTP message as handed to `connection.sendmail` at `main.py:160`. -/
structure Mail where
  from_addr : String
  to_addrs : String
  msg : String
deriving DecidableEq

/-- `send_mail` (`main.py:142-172`), modelled by the message it hands the
mail transport. -/
def send_mail (email recipient : String) (new_price : ℚ)
    (product_url product_name : String) : Mail :=
  ⟨email, recipient, mailMsg new_price product_url product_name⟩

/-- The script tail `main.py:175-198`: if `product_info` is falsy no mail is
sent; otherwise a mail is sent exactly when `price <= TARGET_PRICE`.  The
result is the list of notifier invocations of the run. -/
def notifyDecision (email recipient : String) (info : PyResult) : List Mail :=
  match info with
  | .snapshot product price =>
    if price ≤ (TARGET_PRICE : ℚ) then
      [send_mail email recipient price AMAZON_URL product]
    else []
  | _ => []

/-- The notifier invocations of a whole run: an aborted run never reaches
the script tail, so it sends nothing. -/
def runMails (email recipient : String) (r : RunResult) : List Mail :=
  match r with
  | .ret v _ => notifyDecision email recipient v
  | _ => []

/-- An attempt outcome on which extraction fails with a missing field as the
orchestrator sees it: either the price node is absent, or the price node's
text parses and the title node is absent. -/
def attemptFieldMissing : AttemptOutcome → Bool
  | .page .missing _ => true
  | .page (.text pt) .missing => (parsePrice pt).isSome
  | _ => false

/-- An oracle whose first fetch yields a page with the price node missing and
whose later fetches yield a fully extractable page. -/
def envMissThenGood : Nat → AttemptOutcome := fun i =>
  if i = 0 then .page .missing (.text "Widget")
  else .page (.text "$42.50") (.text "Widget Deluxe")

/-- An oracle every fetch of which yields a fully extractable page. -/
def envAllGood : Nat → AttemptOutcome := fun _ =>
  .page (.text "$42.50") (.text "Widget")

/-- An oracle every fetch of which yields a page whose price node is present
but whose text does not parse as a number. -/
def envMalformedPrice : Nat → AttemptOutcome := fun _ =>
  .page (.text "abc") (.text "Widget")

/-- C1 (code evaluated at the failing input): with budget 2, when the first
attempt misses the price field and the second attempt extracts successfully,
the call performs 2 fetches but returns `None` — the recursive call's
successful snapshot is discarded, contradicting the claim that the attempt-2
snapshot is returned. -/
theorem c1_deep_success_discarded :
    get_product_info envMissThenGood 2 = .ret .noneRet ⟨1, 2, 2⟩ := by
  decide

/-- C2 counterexample: at the negative budget `-1` (so `B ≤ 0`), a run whose
first page extracts successfully still performs one fetch, because the
source's guard is `MAX_RETRIES != 0`, not `MAX_RETRIES <= 0`. -/
theorem c2_negative_budget_fetches :
    (-1 : Int) ≤ 0 ∧ (get_product_info envAllGood (-1)).state.fetches ≠ 0 := by
  exact ⟨by decide, by decide⟩

/-- C2 amended: with budget exactly 0 the call performs no fetch and
immediately returns the empty tuple (the exhausted result), for every
oracle. -/
theorem c2_zero_budget_no_fetch (env : Nat → AttemptOutcome) :
    get_product_info env 0 = .ret .emptyTuple ⟨0, 0, 0⟩ := by
  rfl

/-- C6: if the first fetch fails at the transport level, the run aborts with
exactly one fetch, zero extraction attempts and zero notifications, whatever
nonzero budget remains. -/
theorem c6_transport_error_aborts (env : Nat → AttemptOutcome) (B : Int)
    (email recipient : String) (hB : B ≠ 0) (h0 : env 0 = .transportError) :
    get_product_info env B = .abortTransport ⟨B, 1, 0⟩ ∧
      runMails email recipient (get_product_info env B) = [] := by
  have h : get_product_info env B = .abortTransport ⟨B, 1, 0⟩ := by
    simp [get_product_info, runAux, hB, h0]
  exact ⟨h, by rw [h]; rfl⟩

/-- C6 witness at budget 5. -/
theorem c6_witness :
    get_product_info (fun _ => .transportError) 5 = .abortTransport ⟨5, 1, 0⟩ ∧
      runMails "a@x" "r@x" (get_product_info (fun _ => .transportError) 5) = [] :=
  c6_transport_error_aborts (fun _ => .transportError) 5 "a@x" "r@x"
    (by decide) rfl

/-- C9: when the first attempt finds both nodes and the price text parses,
the call returns that snapshot and the budget after the call equals the
budget before it: no retry-budget unit is consumed on a successful
attempt. -/
theorem c9_success_preserves_budget (env : Nat → AttemptOutcome) (B : Int)
    (pt tt : String) (p : ℚ) (hB : B ≠ 0)
    (h0 : env 0 = .page (.text pt) (.text tt)) (hp : parsePrice pt = some p) :
    get_product_info env B = .ret (.snapshot (normTitleStr tt) p) ⟨B, 1, 1⟩ := by
  simp [get_product_info, runAux, hB, h0, hp]

/-- C9 witness at budget 5: price text `"$42.50"` parses to `42.5`. -/
theorem c9_witness :
    get_product_info envAllGood 5 = .ret (.snapshot "Widget" (mkRat 85 2)) ⟨5, 1, 1⟩ := by
  have h := c9_success_preserves_budget envAllGood 5 "$42.50" "Widget" (mkRat 85 2)
    (by decide) rfl (by decide)
  exact h

/-- C10: when selecting the price node (or, after a parsed price, the title
node) raises an exception other than the missing-node `AttributeError`, the
call returns `None` with no budget consumed and no re-fetch, and the run
sends no mail. -/
theorem c10_other_exception_no_retry (env : Nat → AttemptOutcome) (B : Int)
    (email recipient : String) (hB : B ≠ 0)
    (h : (∃ t, env 0 = .page .otherError t) ∨
      (∃ pt p, env 0 = .page (.text pt) .otherError ∧ parsePrice pt = some p)) :
    get_product_info env B = .ret .noneRet ⟨B, 1, 1⟩ ∧
      runMails email recipient (get_product_info env B) = [] := by
  have hr : get_product_info env B = .ret .noneRet ⟨B, 1, 1⟩ := by
    rcases h with ⟨t, h0⟩ | ⟨pt, p, h0, hp⟩
    · simp [get_product_info, runAux, hB, h0]
    · simp [get_product_info, runAux, hB, h0, hp]
  exact ⟨hr, by rw [hr]; rfl⟩

/-- C10 witness: a non-`AttributeError` exception on the price node at
budget 5. -/
theorem c10_witness :
    get_product_info (fun _ => .page .otherError (.text "W")) 5 = .ret .noneRet ⟨5, 1, 1⟩ ∧
      runMails "a@x" "r@x" (get_product_info (fun _ => .page .otherError (.text "W")) 5) = [] :=
  c10_other_exception_no_retry (fun _ => .page .otherError (.text "W")) 5 "a@x" "r@x"
    (by decide) (Or.inl ⟨.text "W", rfl⟩)

/-- C4 counterexample: with budget 5 and a first page whose price node text
is `"abc"`, the run does not consume a budget unit and does not re-fetch; it
aborts with the uncaught `ValueError` from `float`, after exactly one fetch,
with the budget still 5. -/
theorem c4_malformed_price_aborts :
    get_product_info envMalformedPrice 5 = .abortValue ⟨5, 1, 1⟩ ∧
      (get_product_info envMalformedPrice 5).state.budget = 5 ∧
      (get_product_info envMalformedPrice 5).state.fetches = 1 := by
  exact ⟨by decide, by decide, by decide⟩

/-- C4 amended: a present price node whose stripped text does not parse as a
number makes the run abort via the uncaught `ValueError` after one fetch,
with the retry budget untouched — it is not treated as a missing field. -/
theorem c4_malformed_price_fatal (env : Nat → AttemptOutcome) (B : Int)
    (pt : String) (t : NodeResult) (hB : B ≠ 0)
    (h0 : env 0 = .page (.text pt) t) (hp : parsePrice pt = none) :
    get_product_info env B = .abortValue ⟨B, 1, 1⟩ := by
  simp [get_product_info, runAux, hB, h0, hp]

/-- C4 amended witness at budget 5. -/
theorem c4_witness :
    get_product_info envMalformedPrice 5 = .abortValue ⟨5, 1, 1⟩ :=
  c4_malformed_price_fatal envMalformedPrice 5 "abc" (.text "Widget")
    (by decide) rfl (by decide)

/-- C5: for every snapshot, the script tail invokes the notifier exactly once
with the templated message when the price is at most the target, and never
invokes it when the price exceeds the target. -/
theorem c5_notify_iff_at_or_below_target (email recipient product : String) (p : ℚ) :
    (p ≤ (TARGET_PRICE : ℚ) →
      notifyDecision email recipient (.snapshot product p) =
        [send_mail email recipient p AMAZON_URL product]) ∧
    ((TARGET_PRICE : ℚ) < p →
      notifyDecision email recipient (.snapshot product p) = []) := by
  constructor
  · intro hle
    simp [notifyDecision, hle]
  · intro hgt
    simp [notifyDecision, not_le.mpr hgt]

/-- C5 witness: price 95 against target 100 sends exactly one templated mail;
price 150 sends none. -/
theorem c5_witness :
    notifyDecision "a@x" "r@x" (.snapshot "Widget" 95) =
        [send_mail "a@x" "r@x" 95 AMAZON_URL "Widget"] ∧
      notifyDecision "a@x" "r@x" (.snapshot "Widget" 150) = [] :=
  ⟨(c5_notify_iff_at_or_below_target "a@x" "r@x" "Widget" 95).1
      (by norm_num [TARGET_PRICE]),
    (c5_notify_iff_at_or_below_target "a@x" "r@x" "Widget" 150).2
      (by norm_num [TARGET_PRICE])⟩

/-- Key lemma for budget exhaustion: from any state whose budget is the
natural number `B`, if every one of the next `B` fetches yields a
missing-field page, the run performs exactly `B` further fetches (none when
`B = 0`) and returns the empty tuple when `B = 0`, `None` otherwise. -/
theorem runAux_all_field_missing (env : Nat → AttemptOutcome) :
    ∀ (B : Nat) (s : RunState) (fuel : Nat), s.budget = (B : Int) →
      (∀ i, i < B → attemptFieldMissing (env (s.fetches + i)) = true) →
      B + 1 ≤ fuel →
      runAux env fuel s =
        if B = 0 then .ret .emptyTuple s
        else .ret .noneRet ⟨0, s.fetches + B, s.extractions + B⟩ := by
  intro B
  induction B with
  | zero =>
    intro s fuel hb hmiss hfuel
    match fuel, hfuel with
    | fuel + 1, _ =>
      have hz : ¬ s.budget ≠ 0 := by rw [hb]; simp
      simp only [runAux, if_neg hz]
      simp
  | succ B ih =>
    intro s fuel hb hmiss hfuel
    match fuel, hfuel with
    | fuel + 1, hfuel =>
      have hfuel' : B + 1 ≤ fuel := by omega
      have hbne : s.budget ≠ 0 := by rw [hb]; exact_mod_cast Nat.succ_ne_zero B
      have h0 : attemptFieldMissing (env s.fetches) = true := by
        have h := hmiss 0 (Nat.succ_pos B)
        simpa using h
      have hb2 : s.budget - 1 = (B : Int) := by rw [hb]; push_cast; ring
      have hm2 : ∀ i, i < B →
          attemptFieldMissing (env (s.fetches + 1 + i)) = true := by
        intro i hi
        have he : s.fetches + 1 + i = s.fetches + (i + 1) := by omega
        rw [he]
        exact hmiss (i + 1) (by omega)
      rw [if_neg (Nat.succ_ne_zero B)]
      simp only [runAux, if_pos hbne]
      cases henv : env s.fetches with
      | transportError => rw [henv] at h0; simp [attemptFieldMissing] at h0
      | parseError => rw [henv] at h0; simp [attemptFieldMissing] at h0
      | page priceN titleN =>
        cases priceN with
        | otherError => rw [henv] at h0; simp [attemptFieldMissing] at h0
        | missing =>
          simp only [hb2]
          rw [ih ⟨(B : Int), s.fetches + 1, s.extractions + 1⟩ fuel rfl hm2 hfuel']
          by_cases hB0 : B = 0
          · subst hB0
            simp
          · rw [if_neg hB0]
            have h1 : s.fetches + 1 + B = s.fetches + (B + 1) := by omega
            have h2 : s.extractions + 1 + B = s.extractions + (B + 1) := by omega
            simp [h1, h2]
        | text pt =>
          cases titleN with
          | otherError => rw [henv] at h0; simp [attemptFieldMissing] at h0
          | text tt => rw [henv] at h0; simp [attemptFieldMissing] at h0
          | missing =>
            rw [henv] at h0
            simp only [attemptFieldMissing, Option.isSome_iff_exists] at h0
            obtain ⟨p, hp⟩ := h0
            simp only [hp, hb2]
            rw [ih ⟨(B : Int), s.fetches + 1, s.extractions + 1⟩ fuel rfl hm2 hfuel']
            by_cases hB0 : B = 0
            · subst hB0
              simp
            · rw [if_neg hB0]
              have h1 : s.fetches + 1 + B = s.fetches + (B + 1) := by omega
              have h2 : s.extractions + 1 + B = s.extractions + (B + 1) := by omega
              simp [h1, h2]

/-- C3: for every budget `B ≥ 1`, if every attempt's extraction fails with a
missing field, the call performs exactly `B` fetches, fully consumes the
budget, and returns the falsy `None` (the exhausted outcome at `main.py:140`
travels up through callers that discard it). -/
theorem c3_all_attempts_fail_exhausts (B : Nat) (env : Nat → AttemptOutcome)
    (hB : 1 ≤ B) (hmiss : ∀ i, i < B → attemptFieldMissing (env i) = true) :
    get_product_info env (B : Int) = .ret .noneRet ⟨0, B, B⟩ := by
  have hm : ∀ i, i < B →
      attemptFieldMissing (env ((⟨(B : Int), 0, 0⟩ : RunState).fetches + i)) = true := by
    intro i hi
    simpa using hmiss i hi
  have h := runAux_all_field_missing env B ⟨(B : Int), 0, 0⟩ ((B : Int).toNat + 1)
    rfl hm (by omega)
  rw [get_product_info, h, if_neg (by omega)]
  simp

/-- C3 witness: budget 3 with the price node missing on every attempt. -/
theorem c3_witness :
    get_product_info (fun _ => .page .missing (.text "W")) 3 = .ret .noneRet ⟨0, 3, 3⟩ :=
  c3_all_attempts_fail_exhausts 3 (fun _ => .page .missing (.text "W"))
    (by decide) (fun _ _ => rfl)

/-- Dropping while `p` holds skips a leading block on which `p` is
everywhere true. -/
theorem dropWhile_append_all (p : Char → Bool) :
    ∀ (a l : List Char), (∀ c ∈ a, p c = true) →
      List.dropWhile p (a ++ l) = List.dropWhile p l := by
  intro a
  induction a with
  | nil => intro l _; rfl
  | cons c a' ih =>
    intro l h
    rw [List.cons_append, List.dropWhile_cons]
    rw [h c (List.mem_cons_self c a')]
    exact ih l (fun d hd => h d (List.mem_cons_of_mem c hd))

/-- Dropping while `p` holds leaves a list untouched when `p` is everywhere
false on it. -/
theorem dropWhile_eq_self_of_all_false (p : Char → Bool) (l : List Char)
    (h : ∀ c ∈ l, p c = false) : List.dropWhile p l = l := by
  cases l with
  | nil => rfl
  | cons c l' =>
    rw [List.dropWhile_cons, h c (List.mem_cons_self c l')]
    simp

/-- A digit or a dot is not one of the characters stripped by
`strip("\r\n $")`. -/
theorem digit_or_dot_not_stripped (c : Char)
    (h : c.isDigit = true ∨ c = '.') : ¬ c ∈ priceStripChars := by
  intro hmem
  simp only [priceStripChars, List.mem_cons, List.not_mem_nil, or_false] at hmem
  rcases hmem with rfl | rfl | rfl | rfl <;>
    rcases h with h | h <;> simp_all

/-- `strip("\r\n $")` applied to a digit-or-dot core surrounded by stripped
characters returns exactly the core. -/
theorem stripChars_surround (pre num suf : List Char)
    (hpre : ∀ c ∈ pre, c ∈ priceStripChars) (hsuf : ∀ c ∈ suf, c ∈ priceStripChars)
    (hnum : num ≠ []) (hchars : ∀ c ∈ num, c.isDigit = true ∨ c = '.') :
    stripChars (pre ++ num ++ suf) priceStripChars = num := by
  have hnumf : ∀ c ∈ num, (decide (c ∈ priceStripChars)) = false := by
    intro c hc
    simpa using digit_or_dot_not_stripped c (hchars c hc)
  have hpret : ∀ c ∈ pre, (decide (c ∈ priceStripChars)) = true := by
    intro c hc; simpa using hpre c hc
  have hsuft : ∀ c ∈ suf.reverse, (decide (c ∈ priceStripChars)) = true := by
    intro c hc; simpa using hsuf c (List.mem_reverse.mp hc)
  cases num with
  | nil => exact absurd rfl hnum
  | cons n0 num' =>
    unfold stripChars
    rw [List.append_assoc]
    rw [dropWhile_append_all _ pre ((n0 :: num') ++ suf) hpret]
    rw [List.cons_append, List.dropWhile_cons]
    rw [hnumf n0 (List.mem_cons_self n0 num')]
    simp only [Bool.false_eq_true, if_false]
    rw [show (n0 :: (num' ++ suf)).reverse = suf.reverse ++ (num'.reverse ++ [n0]) by
      simp [List.reverse_cons, List.reverse_append, List.append_assoc]]
    rw [dropWhile_append_all _ suf.reverse (num'.reverse ++ [n0]) hsuft]
    have hall : ∀ c ∈ num'.reverse ++ [n0], (decide (c ∈ priceStripChars)) = false := by
      intro c hc
      apply hnumf
      rcases List.mem_append.mp hc with hmem | hmem
      · exact List.mem_cons_of_mem n0 (List.mem_reverse.mp hmem)
      · simp only [List.mem_singleton] at hmem
        simp [hmem]
    rw [dropWhile_eq_self_of_all_false _ (num'.reverse ++ [n0]) hall]
    simp

/-- C7: for any price text made of a nonempty decimal core (digits and a
dot) surrounded on both sides by spaces, carriage returns, newlines and
dollar signs, the extraction's normalisation strips the surround and parses
the core, yielding the core's numeric value. -/
theorem c7_price_strip_parse (pre num suf : List Char) (q : ℚ)
    (hpre : ∀ c ∈ pre, c ∈ priceStripChars) (hsuf : ∀ c ∈ suf, c ∈ priceStripChars)
    (hnum : num ≠ []) (hchars : ∀ c ∈ num, c.isDigit = true ∨ c = '.')
    (hq : pyFloat num = some q) :
    parsePriceChars (pre ++ num ++ suf) = some q := by
  rw [parsePriceChars, stripChars_surround pre num suf hpre hsuf hnum hchars, hq]

/-- C7 witness: `"  $42.50\r\n"` normalises and parses to `42.5`
(`mkRat 85 2`). -/
theorem c7_witness :
    parsePriceChars (String.toList "  $42.50\r\n") = some (mkRat 85 2) := by
  have h := c7_price_strip_parse [' ', ' ', '$'] ['4', '2', '.', '5', '0'] ['\r', '\n']
    (mkRat 85 2) (by decide) (by decide) (by decide) (by decide) (by decide)
  exact h

/-- `split()` skips a leading all-whitespace block. -/
theorem pySplitAux_skip_spaces :
    ∀ (s l : List Char), (∀ c ∈ s, isPySpace c = true) →
      pySplitAux (s ++ l) [] = pySplitAux l [] := by
  intro s
  induction s with
  | nil => intro l _; rfl
  | cons c s' ih =>
    intro l h
    have hc : isPySpace c = true := h c (List.mem_cons_self c s')
    simp only [List.cons_append, pySplitAux, hc, if_true, List.isEmpty_nil]
    exact ih l (fun d hd => h d (List.mem_cons_of_mem c hd))

/-- `split()` accumulates a whitespace-free block onto the current word. -/
theorem pySplitAux_word :
    ∀ (w l acc : List Char), (∀ c ∈ w, isPySpace c = false) →
      pySplitAux (w ++ l) acc = pySplitAux l (w.reverse ++ acc) := by
  intro w
  induction w with
  | nil => intro l acc _; simp
  | cons c w' ih =>
    intro l acc h
    have hc : isPySpace c = false := h c (List.mem_cons_self c w')
    simp only [List.cons_append, pySplitAux, hc, Bool.false_eq_true, if_false]
    show pySplitAux (w' ++ l) (c :: acc) = pySplitAux l ((c :: w').reverse ++ acc)
    rw [ih l (c :: acc) (fun d hd => h d (List.mem_cons_of_mem c hd))]
    congr 1
    simp [List.reverse_cons, List.append_assoc]

/-- `split()` of an all-whitespace string yields no words. -/
theorem pySplitAux_all_spaces_nil (s : List Char)
    (h : ∀ c ∈ s, isPySpace c = true) : pySplitAux s [] = [] := by
  have h2 := pySplitAux_skip_spaces s [] h
  simpa using h2

/-- At an all-whitespace tail, `split()` flushes the pending word and
finishes. -/
theorem pySplitAux_all_spaces_flush (s acc : List Char) (hacc : acc ≠ [])
    (h : ∀ c ∈ s, isPySpace c = true) : pySplitAux s acc = [acc.reverse] := by
  have haccF : acc.isEmpty = false := by
    cases acc with
    | nil => exact absurd rfl hacc
    | cons a as => rfl
  cases s with
  | nil => simp [pySplitAux, haccF]
  | cons c s' =>
    have hc : isPySpace c = true := h c (List.mem_cons_self c s')
    simp only [pySplitAux, hc, if_true, haccF, Bool.false_eq_true, if_false]
    rw [pySplitAux_all_spaces_nil s' (fun d hd => h d (List.mem_cons_of_mem c hd))]

/-- Core of the split: a pending word followed by alternating nonempty
whitespace runs and nonempty words (and optional trailing whitespace) splits
into exactly those words. -/
theorem pySplitAux_words :
    ∀ (pairs : List (List Char × List Char)) (post acc : List Char), acc ≠ [] →
      (∀ p ∈ pairs, p.1 ≠ [] ∧ (∀ c ∈ p.1, isPySpace c = true) ∧
        p.2 ≠ [] ∧ (∀ c ∈ p.2, isPySpace c = false)) →
      (∀ c ∈ post, isPySpace c = true) →
      pySplitAux ((pairs.map (fun p => p.1 ++ p.2)).flatten ++ post) acc
        = acc.reverse :: pairs.map Prod.snd := by
  intro pairs
  induction pairs with
  | nil =>
    intro post acc hacc _ hpost
    simpa using pySplitAux_all_spaces_flush post acc hacc hpost
  | cons pr rest ih =>
    intro post acc hacc hpairs hpost
    obtain ⟨s, v⟩ := pr
    obtain ⟨hs, hsall, hv, hvall⟩ := hpairs (s, v) (List.mem_cons_self (s, v) rest)
    cases s with
    | nil => exact absurd rfl hs
    | cons c s' =>
      have hc : isPySpace c = true := hsall c (List.mem_cons_self c s')
      have haccF : acc.isEmpty = false := by
        cases acc with
        | nil => exact absurd rfl hacc
        | cons a as => rfl
      simp only [List.map_cons, List.flatten_cons, List.cons_append, List.append_assoc]
      simp only [pySplitAux, hc, if_true, haccF, Bool.false_eq_true, if_false]
      rw [pySplitAux_skip_spaces s' _ (fun d hd => hsall d (List.mem_cons_of_mem c hd))]
      rw [pySplitAux_word v _ [] hvall, List.append_nil]
      rw [ih post v.reverse (fun hrev => hv (List.reverse_eq_nil_iff.mp hrev))
        (fun p hp => hpairs p (List.mem_cons_of_mem (c :: s', v) hp)) hpost]
      rw [List.reverse_reverse]

/-- `" ".join` inserts a single space before every word after the first. -/
theorem joinSpace_cons_eq (w : List Char) (ws : List (List Char)) :
    joinSpace (w :: ws) = w ++ (ws.map (fun v => ' ' :: v)).flatten := by
  induction ws generalizing w with
  | nil => simp [joinSpace]
  | cons v rest ih =>
    show w ++ ' ' :: joinSpace (v :: rest) = _
    rw [ih v]
    simp [List.append_assoc]

/-- C8: title normalisation collapses each internal whitespace run (of any
whitespace characters, newlines included) to a single space and trims both
ends: a first word followed by alternating nonempty whitespace runs and
words, padded by arbitrary leading and trailing whitespace, normalises to
the words joined by single spaces. -/
theorem c8_title_whitespace_collapse (pre post w : List Char)
    (pairs : List (List Char × List Char))
    (hpre : ∀ c ∈ pre, isPySpace c = true) (hpost : ∀ c ∈ post, isPySpace c = true)
    (hw : w ≠ []) (hwc : ∀ c ∈ w, isPySpace c = false)
    (hpairs : ∀ p ∈ pairs, p.1 ≠ [] ∧ (∀ c ∈ p.1, isPySpace c = true) ∧
      p.2 ≠ [] ∧ (∀ c ∈ p.2, isPySpace c = false)) :
    normTitle (pre ++ (w ++ ((pairs.map (fun p => p.1 ++ p.2)).flatten ++ post)))
      = w ++ (pairs.map (fun p => ' ' :: p.2)).flatten := by
  unfold normTitle pySplit
  rw [pySplitAux_skip_spaces pre _ hpre]
  rw [pySplitAux_word w _ [] hwc, List.append_nil]
  rw [pySplitAux_words pairs post w.reverse
    (fun hrev => hw (List.reverse_eq_nil_iff.mp hrev)) hpairs hpost]
  rw [List.reverse_reverse, joinSpace_cons_eq]
  congr 1
  rw [List.map_map]
  rfl

/-- C8 witness: `"Widget   Deluxe\n Pro"` normalises to
`"Widget Deluxe Pro"`. -/
theorem c8_witness :
    normTitle (String.toList "Widget   Deluxe\n Pro") = String.toList "Widget Deluxe Pro" := by
  have h := c8_title_whitespace_collapse [] [] (String.toList "Widget")
    [(String.toList "   ", String.toList "Deluxe"), (String.toList "\n ", String.toList "Pro")]
    (by decide) (by decide) (by decide) (by decide) (by decide)
  exact h
